import Mathlib

/-!
Verification of the progress evaluation engine of the antara habit tracker.

The engine (`getProgress` and its three per-rhythm strategies) is a pure
function of (activity, rhythm, history, now).  JavaScript `Date` values are
modelled as epoch milliseconds (`Int`) in a fixed timezone without daylight
saving, so the civil-field operations of `Date` (`setHours`, `setDate`,
`setMonth`, `getDay`, ...) correspond to arithmetic on epoch days through the
standard proleptic-Gregorian conversion between day numbers and
(year, month, day) triples.  `differenceInCalendarDays` from date-fns is the
difference of the two calendar-day indices.  TypeScript `number` values (all
integral here) are modelled as `Int`; optional / nullable fields as `Option`.
-/

/-- Milliseconds per day, `1000 * 60 * 60 * 24`. -/
def msPerDay : Int := 86400000

/-- Unit of a trailing or recurring rhythm: `"days" | "weeks" | "months"`. -/
inductive TimeUnit where
  | days
  | weeks
  | months
deriving DecidableEq, Repr

/-- The literal string value of a `TimeUnit` in the source. -/
def TimeUnit.label : TimeUnit → String
  | .days => "days"
  | .weeks => "weeks"
  | .months => "months"

/-- Period of a calendar rhythm: `"daily" | "weekly" | "monthly" | "yearly"`. -/
inductive CalendarPeriod where
  | daily
  | weekly
  | monthly
  | yearly
deriving DecidableEq, Repr

/-- The literal string value of a `CalendarPeriod` in the source. -/
def CalendarPeriod.label : CalendarPeriod → String
  | .daily => "daily"
  | .weekly => "weekly"
  | .monthly => "monthly"
  | .yearly => "yearly"

/-- Measurement of an activity: `"instances" | "duration"`. -/
inductive Measurement where
  | instances
  | duration
deriving DecidableEq, Repr

/-- Framing of an activity: `"task" | "pursuit"`. -/
inductive Framing where
  | task
  | pursuit
deriving DecidableEq, Repr

/-- Kind of a history event: `"completion" | "duration"`. -/
inductive EventKind where
  | completion
  | duration
deriving DecidableEq, Repr

/-- The rhythm discriminated union from `src/types.ts`, as consumed by
`getProgress` (`kind` is the discriminant; each variant carries its fields). -/
inductive Rhythm where
  | recurring (every : Int) (unit : TimeUnit)
  | trailing (count : Int) (unit : TimeUnit)
  | calendar (period : CalendarPeriod)
deriving DecidableEq, Repr

/-- An activity row (db/schema.ts `activities`); `getProgress` reads only
`target` and `measurement`. -/
structure Activity where
  id : Int
  name : String
  framing : Framing
  rhythmId : Int
  target : Int
  measurement : Measurement
  createdAt : Int
deriving DecidableEq, Repr

/-- A history event row (db/schema.ts `history`); `minutes` is nullable. -/
structure HistoryEvent where
  id : Int
  activityId : Int
  kind : EventKind
  minutes : Option Int
  timestamp : Int
deriving DecidableEq, Repr

/-- The computed progress status (`ProgressStatus` in progress.ts).  Optional
fields that the source omits in a given branch are `none`. -/
structure ProgressStatus where
  current : Int
  target : Int
  isOnTrack : Bool
  context : String
  daysRemaining : Option Int := none
  daysUntilDue : Option Int := none
  daysOverdue : Option Int := none
  periodLabel : Option String := none
deriving DecidableEq, Repr

/-- Calendar-day index of an epoch-millisecond instant (floor division;
`/` on `Int` is Euclidean division, which floors for a positive divisor). -/
def epochDay (t : Int) : Int := t / msPerDay

/-- date-fns `differenceInCalendarDays(laterDate, earlierDate)`: the difference
of the calendar-day indices of the two instants. -/
def differenceInCalendarDays (laterDate earlierDate : Int) : Int :=
  epochDay laterDate - epochDay earlierDate

/-- JS `Date.prototype.getDay`: day of week, `0` = Sunday .. `6` = Saturday.
Epoch day `0` (1970-01-01) was a Thursday (`4`). -/
def getDay (t : Int) : Int := (epochDay t + 4) % 7

/-- Day number (days since 1970-01-01) of a proleptic-Gregorian civil date;
`m` is the 1-based month, extended linearly so that `m = 13` is January of the
next year and `d = 0` is the day before the first of the month (matching the
overflow normalisation of JS `Date.prototype.setMonth`/`setDate`). -/
def daysFromCivil (y m d : Int) : Int :=
  let y2 : Int := if m ≤ 2 then y - 1 else y
  let era : Int := y2 / 400
  let yoe : Int := y2 - era * 400
  let mp : Int := if 2 < m then m - 3 else m + 9
  let doy : Int := (153 * mp + 2) / 5 + d - 1
  let doe : Int := yoe * 365 + yoe / 4 - yoe / 100 + doy
  era * 146097 + doe - 719468

/-- Day-of-era of the start of year-of-era `yoe` (years counted from March 1 of
an era; valid for `0 ≤ yoe ≤ 399`). -/
def yearStart (yoe : Int) : Int := 365 * yoe + yoe / 4 - yoe / 100

/-- Era index (400-year Gregorian cycle) containing a day number. -/
def eraOf (z : Int) : Int := (z + 719468) / 146097

/-- Day-of-era (`0 ≤ _ ≤ 146096`) of a day number. -/
def doeOf (z : Int) : Int := (z + 719468) % 146097

/-- Year-of-era of a day-of-era: the Julian estimate `(4·doe + 3) / 1461`,
corrected upward by one when the next year of era has already started. -/
def yoeOf (doe : Int) : Int :=
  if (4 * doe + 3) / 1461 + 1 ≤ 399 ∧ yearStart ((4 * doe + 3) / 1461 + 1) ≤ doe then
    (4 * doe + 3) / 1461 + 1
  else (4 * doe + 3) / 1461

/-- Day of year-of-era (0-based, March-first years) of a day-of-era. -/
def doyOf (doe : Int) : Int := doe - yearStart (yoeOf doe)

/-- Shifted month index (0 = March .. 11 = February) of a day-of-year. -/
def mpOf (doy : Int) : Int := (5 * doy + 2) / 153

/-- Civil month (1 = January .. 12 = December) from the shifted index. -/
def monthFromMp (mp : Int) : Int := if mp < 10 then mp + 3 else mp - 9

/-- Day of month (1-based) of a day-of-year. -/
def dayFromDoy (doy : Int) : Int := doy - (153 * mpOf doy + 2) / 5 + 1

/-- Civil (year, 1-based month, day) of a day number. -/
def civilFromDays (z : Int) : Int × Int × Int :=
  (if monthFromMp (mpOf (doyOf (doeOf z))) ≤ 2 then yoeOf (doeOf z) + eraOf z * 400 + 1
    else yoeOf (doeOf z) + eraOf z * 400,
   monthFromMp (mpOf (doyOf (doeOf z))),
   dayFromDoy (doyOf (doeOf z)))

/-- JS `Date.prototype.getFullYear` of an epoch-millisecond instant. -/
def getFullYear (t : Int) : Int := (civilFromDays (epochDay t)).1

/-- JS `Date.prototype.getMonth` (0-based month) of an instant. -/
def getMonth (t : Int) : Int := (civilFromDays (epochDay t)).2.1 - 1

/-- JS `Date.prototype.getDate` (1-based day of month) of an instant. -/
def getDate (t : Int) : Int := (civilFromDays (epochDay t)).2.2

/-- progress.ts `getPeriodStart`: start (first millisecond) of the calendar
period containing `now`.  `daily`: midnight of the day; `weekly`: go back
`day === 0 ? 6 : day - 1` days to Monday, then midnight; `monthly`: the 1st at
midnight; `yearly`: Jan 1 at midnight. -/
def getPeriodStart (now : Int) (period : CalendarPeriod) : Int :=
  match period with
  | .daily => epochDay now * msPerDay
  | .weekly =>
    let day := getDay now
    let diff := if day = 0 then 6 else day - 1
    (epochDay now - diff) * msPerDay
  | .monthly => daysFromCivil (getFullYear now) (getMonth now + 1) 1 * msPerDay
  | .yearly => daysFromCivil (getFullYear now) 1 1 * msPerDay

/-- progress.ts `getPeriodEnd`: last millisecond (`23:59:59.999`) of the
calendar period containing `now`.  `weekly`: go forward
`day === 0 ? 0 : 7 - day` days to Sunday; `monthly`:
`setMonth(getMonth() + 1, 0)`, i.e. day 0 of the next month; `yearly`:
`setMonth(11, 31)`, i.e. Dec 31. -/
def getPeriodEnd (now : Int) (period : CalendarPeriod) : Int :=
  match period with
  | .daily => epochDay now * msPerDay + (msPerDay - 1)
  | .weekly =>
    let day := getDay now
    let daysUntilSunday := if day = 0 then 0 else 7 - day
    (epochDay now + daysUntilSunday) * msPerDay + (msPerDay - 1)
  | .monthly =>
    daysFromCivil (getFullYear now) (getMonth now + 2) 0 * msPerDay + (msPerDay - 1)
  | .yearly =>
    daysFromCivil (getFullYear now) 12 31 * msPerDay + (msPerDay - 1)

/-- Replace the first occurrence of `pat` in a character list (JS
`String.prototype.replace` with a string pattern replaces only the first
occurrence). -/
def replaceFirstList (pat repl : List Char) : List Char → List Char
  | [] => []
  | c :: cs =>
    if pat.isPrefixOf (c :: cs) then repl ++ (c :: cs).drop pat.length
    else c :: replaceFirstList pat repl cs

/-- JS `s.replace(pat, repl)` for string arguments: first occurrence only. -/
def replaceFirst (s pat repl : String) : String :=
  ⟨replaceFirstList pat.data repl.data s.data⟩

/-- Integer ceiling division (`Math.ceil(a / b)` for a positive divisor). -/
def ceilDiv (a b : Int) : Int := -((-a) / b)

/-- progress.ts `unitToMs`. -/
def unitToMs (count : Int) (unit : TimeUnit) : Int :=
  match unit with
  | .days => count * msPerDay
  | .weeks => count * 7 * msPerDay
  | .months => count * 30 * msPerDay

/-- progress.ts `unitToDays`. -/
def unitToDays (count : Int) (unit : TimeUnit) : Int :=
  match unit with
  | .days => count
  | .weeks => count * 7
  | .months => count * 30

/-- progress.ts `findLastEvent`: `history.reduce` keeping the event with the
strictly larger timestamp (so the first of equal-timestamp events wins). -/
def findLastEvent (history : List HistoryEvent) : Option HistoryEvent :=
  match history with
  | [] => none
  | e :: es =>
    some (es.foldl (fun latest event =>
      if latest.timestamp < event.timestamp then event else latest) e)

/-- progress.ts `aggregateProgress`: event count for `instances`, sum of
`minutes ?? 0` for `duration`. -/
def aggregateProgress (events : List HistoryEvent) (measurement : Measurement) : Int :=
  match measurement with
  | .instances => (events.length : Int)
  | .duration => events.foldl (fun sum e => sum + e.minutes.getD 0) 0

/-- progress.ts `getRecurringProgress`. -/
def getRecurringProgress (activity : Activity) (every : Int) (unit : TimeUnit)
    (history : List HistoryEvent) (now : Int) : ProgressStatus :=
  let intervalDays := unitToDays every unit
  match findLastEvent history with
  | none =>
    { current := 0
      target := activity.target
      isOnTrack := false
      context := "Not started yet"
      daysOverdue := some 0 }
  | some lastEvent =>
    let daysSinceLast := differenceInCalendarDays now lastEvent.timestamp
    if daysSinceLast ≤ intervalDays then
      let daysUntilDue := intervalDays - daysSinceLast
      { current := activity.target
        target := activity.target
        isOnTrack := true
        context :=
          if daysSinceLast = 0 then "today"
          else toString daysSinceLast ++ " day" ++
            (if daysSinceLast = 1 then "" else "s") ++ " ago"
        daysUntilDue := some daysUntilDue }
    else
      let daysOverdue := daysSinceLast - intervalDays
      { current := 0
        target := activity.target
        isOnTrack := false
        context := toString daysOverdue ++ " day" ++
          (if daysOverdue = 1 then "" else "s") ++ " overdue"
        daysOverdue := some daysOverdue }

/-- progress.ts `getTrailingProgress`. -/
def getTrailingProgress (activity : Activity) (count : Int) (unit : TimeUnit)
    (history : List HistoryEvent) (now : Int) : ProgressStatus :=
  let windowMs := unitToMs count unit
  let windowStart := now - windowMs
  let eventsInWindow := history.filter fun e => decide (windowStart ≤ e.timestamp)
  let current := aggregateProgress eventsInWindow activity.measurement
  let periodLabel := "last " ++ toString count ++ " " ++ unit.label
  { current := current
    target := activity.target
    isOnTrack := decide (activity.target ≤ current)
    context := periodLabel
    periodLabel := some periodLabel }

/-- progress.ts `getCalendarProgress`. -/
def getCalendarProgress (activity : Activity) (period : CalendarPeriod)
    (history : List HistoryEvent) (now : Int) : ProgressStatus :=
  let periodStart := getPeriodStart now period
  let periodEnd := getPeriodEnd now period
  let eventsInPeriod := history.filter fun e => decide (periodStart ≤ e.timestamp)
  let current := aggregateProgress eventsInPeriod activity.measurement
  let periodName :=
    if period = .daily then "day" else replaceFirst period.label "ly" ""
  let periodLabel := "this " ++ periodName
  let msRemaining := periodEnd - now
  let daysRemaining := max 0 (ceilDiv msRemaining msPerDay)
  { current := current
    target := activity.target
    isOnTrack := decide (activity.target ≤ current)
    context := periodLabel
    daysRemaining := some daysRemaining
    periodLabel := some periodLabel }

/-- progress.ts `getProgress`: dispatch on the rhythm kind. -/
def getProgress (activity : Activity) (rhythm : Rhythm)
    (history : List HistoryEvent) (now : Int) : ProgressStatus :=
  match rhythm with
  | .recurring every unit => getRecurringProgress activity every unit history now
  | .trailing count unit => getTrailingProgress activity count unit history now
  | .calendar period => getCalendarProgress activity period history now

/-- The maximum timestamp occurring in a history (0 for an empty history);
specification-side description of the event `findLastEvent` selects. -/
def maxTimestamp (history : List HistoryEvent) : Int :=
  match history with
  | [] => 0
  | e :: es => es.foldl (fun m event => max m event.timestamp) e.timestamp


/-- The period noun used in calendar context strings, as the spec describes
it: strip the trailing "ly" from the period identifier, with "daily" mapping
to "day". -/
def periodNoun : CalendarPeriod → String
  | .daily => "day"
  | .weekly => "week"
  | .monthly => "month"
  | .yearly => "year"

/-- A concrete activity in the shape of the test helper `mockActivity`. -/
def mkActivity (target : Int) (measurement : Measurement) : Activity :=
  { id := 1, name := "Test Activity", framing := .pursuit, rhythmId := 1,
    target := target, measurement := measurement, createdAt := 0 }

/-- A concrete history event in the shape of the test helper `mockEvent`. -/
def mkEvent (timestamp : Int) (minutes : Option Int := none) : HistoryEvent :=
  { id := 1, activityId := 1,
    kind := if minutes.isSome then .duration else .completion,
    minutes := minutes, timestamp := timestamp }

lemma foldl_pick_timestamp (es : List HistoryEvent) (e : HistoryEvent) :
    (es.foldl (fun latest event =>
        if latest.timestamp < event.timestamp then event else latest) e).timestamp
      = es.foldl (fun m event => max m event.timestamp) e.timestamp := by
  induction es generalizing e with
  | nil => rfl
  | cons x xs ih =>
    simp only [List.foldl_cons]
    rw [ih]
    have hx : (if e.timestamp < x.timestamp then x else e).timestamp
        = max e.timestamp x.timestamp := by
      split <;> omega
    rw [hx]

lemma maxTimestamp_cons (e : HistoryEvent) (es : List HistoryEvent) :
    maxTimestamp (e :: es) = es.foldl (fun m event => max m event.timestamp) e.timestamp := rfl

lemma le_foldl_max (l : List Int) (a : Int) : a ≤ l.foldl max a := by
  induction l generalizing a with
  | nil => exact le_refl a
  | cons x xs ih => exact le_trans (le_max_left a x) (ih (max a x))

lemma mem_le_foldl_max (l : List Int) (a x : Int) (hx : x ∈ l) : x ≤ l.foldl max a := by
  induction l generalizing a with
  | nil => cases hx
  | cons y ys ih =>
    rcases List.mem_cons.mp hx with h | h
    · subst h
      exact le_trans (le_max_right a x) (le_foldl_max ys (max a x))
    · exact ih (max a y) h

lemma foldl_max_mem (l : List Int) (a : Int) : l.foldl max a = a ∨ l.foldl max a ∈ l := by
  induction l generalizing a with
  | nil => exact Or.inl rfl
  | cons x xs ih =>
    rcases ih (max a x) with h | h
    · rcases max_cases a x with ⟨hm, _⟩ | ⟨hm, _⟩
      · exact Or.inl (by rw [List.foldl_cons, h, hm])
      · exact Or.inr (by rw [List.foldl_cons, h, hm]; exact List.mem_cons_self x xs)
    · exact Or.inr (List.mem_cons_of_mem x h)

lemma maxTimestamp_mem (hist : List HistoryEvent) (h : hist ≠ []) :
    maxTimestamp hist ∈ hist.map (fun e => e.timestamp) := by
  match hist with
  | [] => exact absurd rfl h
  | e :: es =>
    rw [maxTimestamp_cons]
    have hfold : es.foldl (fun m event => max m event.timestamp) e.timestamp
        = (es.map (fun e => e.timestamp)).foldl max e.timestamp := by
      rw [List.foldl_map]
    rw [hfold]
    rcases foldl_max_mem (es.map fun e => e.timestamp) e.timestamp with hc | hc
    · rw [hc]; exact List.mem_map_of_mem _ (List.mem_cons_self e es)
    · rw [List.map_cons]; exact List.mem_cons_of_mem _ hc

lemma le_maxTimestamp (hist : List HistoryEvent) (x : Int)
    (hx : x ∈ hist.map (fun e => e.timestamp)) : x ≤ maxTimestamp hist := by
  match hist with
  | [] => cases hx
  | e :: es =>
    rw [maxTimestamp_cons]
    have hfold : es.foldl (fun m event => max m event.timestamp) e.timestamp
        = (es.map (fun e => e.timestamp)).foldl max e.timestamp := by
      rw [List.foldl_map]
    rw [hfold]
    rw [List.map_cons] at hx
    rcases List.mem_cons.mp hx with h | h
    · subst h; exact le_foldl_max _ _
    · exact mem_le_foldl_max _ _ _ h

lemma maxTimestamp_perm {h1 h2 : List HistoryEvent} (p : h1.Perm h2) :
    maxTimestamp h1 = maxTimestamp h2 := by
  match h1, h2 with
  | [], l2 => rw [p.nil_eq]
  | l1, [] => rw [p.symm.nil_eq]
  | e1 :: es1, e2 :: es2 =>
    have hne1 : (e1 :: es1) ≠ ([] : List HistoryEvent) := by simp
    have hne2 : (e2 :: es2) ≠ ([] : List HistoryEvent) := by simp
    have pm := p.map (fun e => e.timestamp)
    apply le_antisymm
    · exact le_maxTimestamp _ _ (pm.mem_iff.mp (maxTimestamp_mem _ hne1))
    · exact le_maxTimestamp _ _ (pm.mem_iff.mpr (maxTimestamp_mem _ hne2))

/-- Characterisation of the recurring strategy in terms of the maximum
timestamp of the history. -/
lemma getRecurringProgress_eq (a : Activity) (every : Int) (u : TimeUnit)
    (hist : List HistoryEvent) (now : Int) :
    getRecurringProgress a every u hist now =
      if hist = [] then
        { current := 0, target := a.target, isOnTrack := false,
          context := "Not started yet", daysOverdue := some 0 }
      else if differenceInCalendarDays now (maxTimestamp hist) ≤ unitToDays every u then
        { current := a.target, target := a.target, isOnTrack := true,
          context := if differenceInCalendarDays now (maxTimestamp hist) = 0 then "today"
            else toString (differenceInCalendarDays now (maxTimestamp hist)) ++ " day" ++
              (if differenceInCalendarDays now (maxTimestamp hist) = 1 then "" else "s") ++ " ago",
          daysUntilDue := some (unitToDays every u
            - differenceInCalendarDays now (maxTimestamp hist)) }
      else
        { current := 0, target := a.target, isOnTrack := false,
          context := toString (differenceInCalendarDays now (maxTimestamp hist)
              - unitToDays every u) ++ " day" ++
            (if differenceInCalendarDays now (maxTimestamp hist) - unitToDays every u = 1
              then "" else "s") ++ " overdue",
          daysOverdue := some (differenceInCalendarDays now (maxTimestamp hist)
            - unitToDays every u) } := by
  match hist with
  | [] => rfl
  | e :: es =>
    simp only [getRecurringProgress, findLastEvent, maxTimestamp_cons,
      List.cons_ne_nil, if_neg, reduceCtorEq]
    rw [show differenceInCalendarDays now
        (es.foldl (fun latest event =>
          if latest.timestamp < event.timestamp then event else latest) e).timestamp
      = differenceInCalendarDays now
          (es.foldl (fun m event => max m event.timestamp) e.timestamp) from by
        rw [foldl_pick_timestamp]]
    simp only [if_false]

lemma foldl_add_minutes (events : List HistoryEvent) (acc : Int) :
    events.foldl (fun sum e => sum + e.minutes.getD 0) acc
      = acc + (events.map fun e => e.minutes.getD 0).sum := by
  induction events generalizing acc with
  | nil => simp
  | cons e es ih =>
    simp only [List.foldl_cons, List.map_cons, List.sum_cons, ih]
    ring

lemma aggregateProgress_perm {l1 l2 : List HistoryEvent} (p : l1.Perm l2)
    (m : Measurement) : aggregateProgress l1 m = aggregateProgress l2 m := by
  cases m with
  | instances => simp [aggregateProgress, p.length_eq]
  | duration =>
    show l1.foldl _ 0 = l2.foldl _ 0
    rw [foldl_add_minutes, foldl_add_minutes, (p.map fun e => e.minutes.getD 0).sum_eq]

/-- Claim C6: the aggregation helper is total; it returns the event count for
`instances` and the sum of `minutes ?? 0` for `duration`; three duration
events of 60, 45 and 30 minutes aggregate to 135, which against target 150 is
not on track. -/
theorem aggregateProgress_spec (events : List HistoryEvent) :
    aggregateProgress events .instances = (events.length : Int) ∧
    aggregateProgress events .duration = (events.map fun e => e.minutes.getD 0).sum ∧
    aggregateProgress
      [mkEvent 1704787200000 (some 60), mkEvent 1704700800000 (some 45),
        mkEvent 1704614400000 (some 30)] .duration = 135 ∧
    (getProgress (mkActivity 150 .duration) (.trailing 7 .days)
      [mkEvent 1704787200000 (some 60), mkEvent 1704700800000 (some 45),
        mkEvent 1704614400000 (some 30)] 1704888000000).current = 135 ∧
    (getProgress (mkActivity 150 .duration) (.trailing 7 .days)
      [mkEvent 1704787200000 (some 60), mkEvent 1704700800000 (some 45),
        mkEvent 1704614400000 (some 30)] 1704888000000).isOnTrack = false := by
  refine ⟨rfl, ?_, by decide, by decide, by decide⟩
  show events.foldl _ 0 = _
  rw [foldl_add_minutes]
  simp

/-- Claim C7: `unitToDays` maps a count of days, weeks, months to `n`, `7n`,
`30n` respectively, and `unitToMs` is exactly `unitToDays` scaled by
86 400 000, so a month is a flat 30 days in both conversions. -/
theorem unit_conversion_spec (n : Int) :
    unitToDays n .days = n ∧ unitToDays n .weeks = 7 * n ∧ unitToDays n .months = 30 * n ∧
    unitToMs n .days = unitToDays n .days * 86400000 ∧
    unitToMs n .weeks = unitToDays n .weeks * 86400000 ∧
    unitToMs n .months = unitToDays n .months * 86400000 :=
  ⟨rfl, mul_comm n 7, mul_comm n 30, rfl, rfl, rfl⟩

/-- Claim C9: every branch of all three strategies returns `activity.target`
unchanged in the `target` field. -/
theorem getProgress_target_passthrough (a : Activity) (r : Rhythm)
    (hist : List HistoryEvent) (now : Int) :
    (getProgress a r hist now).target = a.target := by
  match r with
  | .recurring every u =>
    show (getRecurringProgress a every u hist now).target = a.target
    rw [getRecurringProgress_eq]
    by_cases hh : hist = []
    · simp [hh]
    · simp only [if_neg hh]
      by_cases hd : differenceInCalendarDays now (maxTimestamp hist) ≤ unitToDays every u <;>
        simp [hd]
  | .trailing count u => rfl
  | .calendar p => rfl

/-- Claim C2: the recurring strategy returns exactly the specified status in
each of its three cases (never started; on track with `daysUntilDue` and a
"today"/"n day(s) ago" context; overdue with `daysOverdue` and an
"n day(s) overdue" context, singular exactly for n = 1). -/
theorem recurring_progress_cases (a : Activity) (every : Int) (u : TimeUnit)
    (hist : List HistoryEvent) (now : Int) :
    getProgress a (.recurring every u) hist now =
      if hist = [] then
        { current := 0, target := a.target, isOnTrack := false,
          context := "Not started yet", daysOverdue := some 0 }
      else if differenceInCalendarDays now (maxTimestamp hist) ≤ unitToDays every u then
        { current := a.target, target := a.target, isOnTrack := true,
          context := if differenceInCalendarDays now (maxTimestamp hist) = 0 then "today"
            else toString (differenceInCalendarDays now (maxTimestamp hist)) ++ " day" ++
              (if differenceInCalendarDays now (maxTimestamp hist) = 1 then "" else "s") ++ " ago",
          daysUntilDue := some (unitToDays every u
            - differenceInCalendarDays now (maxTimestamp hist)) }
      else
        { current := 0, target := a.target, isOnTrack := false,
          context := toString (differenceInCalendarDays now (maxTimestamp hist)
              - unitToDays every u) ++ " day" ++
            (if differenceInCalendarDays now (maxTimestamp hist) - unitToDays every u = 1
              then "" else "s") ++ " overdue",
          daysOverdue := some (differenceInCalendarDays now (maxTimestamp hist)
            - unitToDays every u) } :=
  getRecurringProgress_eq a every u hist now

/-- Claim C1: for a recurring rhythm and a non-empty history, the status is on
track exactly when the whole-calendar-day difference between `now` and the
maximum event timestamp is at most the interval in days (so equality is still
on track, and an event earlier on the same calendar day gives difference 0). -/
theorem recurring_onTrack_iff (a : Activity) (every : Int) (u : TimeUnit)
    (hist : List HistoryEvent) (now : Int) (h : hist ≠ []) :
    ((getProgress a (.recurring every u) hist now).isOnTrack = true ↔
      differenceInCalendarDays now (maxTimestamp hist) ≤ unitToDays every u) ∧
    maxTimestamp hist ∈ hist.map (fun e => e.timestamp) ∧
    (∀ x ∈ hist.map (fun e => e.timestamp), x ≤ maxTimestamp hist) ∧
    differenceInCalendarDays now (maxTimestamp hist)
      = epochDay now - epochDay (maxTimestamp hist) := by
  refine ⟨?_, maxTimestamp_mem hist h, le_maxTimestamp hist, rfl⟩
  show (getRecurringProgress a every u hist now).isOnTrack = true ↔ _
  rw [getRecurringProgress_eq]
  simp only [if_neg h]
  by_cases hd : differenceInCalendarDays now (maxTimestamp hist) ≤ unitToDays every u <;>
    simp [hd]

/-- Witness for C1 at a concrete input: one event two days before `now`,
rhythm "every 7 days". -/
theorem recurring_onTrack_iff_witness :
    (getProgress (mkActivity 1 .instances) (.recurring 7 .days)
      [mkEvent 1704715200000] 1704888000000).isOnTrack = true :=
  (recurring_onTrack_iff (mkActivity 1 .instances) 7 .days
    [mkEvent 1704715200000] 1704888000000 (by decide)).1.mpr (by decide)

/-- Claim C3: the trailing strategy filters history to events at or after
`now` minus the window converted to milliseconds (days, weeks, months as
86 400 000·n, 7× and 30× that), aggregates the kept events into `current`,
is on track exactly when `current ≥ target`, and always uses the
"last {count} {unit}" label as context. -/
theorem trailing_progress_spec (a : Activity) (count : Int) (u : TimeUnit)
    (hist : List HistoryEvent) (now : Int) :
    (getProgress a (.trailing count u) hist now).current
      = aggregateProgress (hist.filter fun e =>
          decide (now - (match u with
            | TimeUnit.days => count * 86400000
            | TimeUnit.weeks => count * 7 * 86400000
            | TimeUnit.months => count * 30 * 86400000) ≤ e.timestamp)) a.measurement ∧
    (∀ e : HistoryEvent,
      e ∈ hist.filter (fun e => decide (now - unitToMs count u ≤ e.timestamp))
        ↔ e ∈ hist ∧ now - unitToMs count u ≤ e.timestamp) ∧
    ((getProgress a (.trailing count u) hist now).isOnTrack = true ↔
      a.target ≤ (getProgress a (.trailing count u) hist now).current) ∧
    (getProgress a (.trailing count u) hist now).context
      = "last " ++ toString count ++ " " ++ u.label ∧
    (getProgress a (.trailing count u) hist now).periodLabel
      = some ((getProgress a (.trailing count u) hist now).context) := by
  refine ⟨?_, ?_, ?_, rfl, rfl⟩
  · cases u <;> rfl
  · intro e
    simp [List.mem_filter]
  · show decide (a.target ≤ _) = true ↔ _
    exact decide_eq_true_iff

/-- Claim C10: option-field discipline of the returned status.  Recurring
statuses never set `daysRemaining` or `periodLabel`; `daysUntilDue` is present
exactly when the history is non-empty and the status is on track;
`daysOverdue` is present exactly when the status is not on track (value 0 for
an empty history); at most one of the two is present.  Trailing and calendar
statuses set neither, and `daysRemaining` is present exactly for calendar. -/
theorem getProgress_optional_fields (a : Activity) (hist : List HistoryEvent)
    (now every count : Int) (u u2 : TimeUnit) (p : CalendarPeriod) :
    ((getProgress a (.recurring every u) hist now).daysRemaining = none ∧
     (getProgress a (.recurring every u) hist now).periodLabel = none ∧
     (getProgress a (.recurring every u) hist now).daysUntilDue.isSome
       = (decide (hist ≠ []) && (getProgress a (.recurring every u) hist now).isOnTrack) ∧
     (getProgress a (.recurring every u) hist now).daysOverdue.isSome
       = !(getProgress a (.recurring every u) hist now).isOnTrack ∧
     ((getProgress a (.recurring every u) hist now).daysUntilDue = none ∨
      (getProgress a (.recurring every u) hist now).daysOverdue = none) ∧
     (getProgress a (.recurring every u) [] now).daysOverdue = some 0) ∧
    ((getProgress a (.trailing count u2) hist now).daysRemaining = none ∧
     (getProgress a (.trailing count u2) hist now).daysUntilDue = none ∧
     (getProgress a (.trailing count u2) hist now).daysOverdue = none) ∧
    ((getProgress a (.calendar p) hist now).daysUntilDue = none ∧
     (getProgress a (.calendar p) hist now).daysOverdue = none ∧
     (getProgress a (.calendar p) hist now).daysRemaining.isSome = true) := by
  refine ⟨?_, ⟨rfl, rfl, rfl⟩, rfl, rfl, rfl⟩
  have hq : getProgress a (.recurring every u) hist now
      = getRecurringProgress a every u hist now := rfl
  rw [hq, getRecurringProgress_eq]
  by_cases hh : hist = []
  · subst hh
    rw [if_pos rfl]
    exact ⟨rfl, rfl, rfl, rfl, Or.inl rfl, rfl⟩
  · rw [if_neg hh]
    by_cases hd : differenceInCalendarDays now (maxTimestamp hist) ≤ unitToDays every u
    · rw [if_pos hd]
      exact ⟨rfl, rfl, by simp [hh], rfl, Or.inr rfl, by
        show (getRecurringProgress a every u [] now).daysOverdue = some 0
        rfl⟩
    · rw [if_neg hd]
      exact ⟨rfl, rfl, by simp [hh], rfl, Or.inl rfl, by
        show (getRecurringProgress a every u [] now).daysOverdue = some 0
        rfl⟩

/-- Claim C8: the computed status does not depend on the order of the history
list; in particular ties on the maximum timestamp are immaterial, since the
result depends on the history only through its emptiness, its maximum
timestamp, and permutation-invariant filter aggregates. -/
theorem getProgress_perm_invariant (a : Activity) (r : Rhythm) (now : Int)
    (h1 h2 : List HistoryEvent) (p : h1.Perm h2) :
    getProgress a r h1 now = getProgress a r h2 now := by
  match r with
  | .recurring every u =>
    show getRecurringProgress a every u h1 now = getRecurringProgress a every u h2 now
    rw [getRecurringProgress_eq, getRecurringProgress_eq, maxTimestamp_perm p]
    by_cases hh : h1 = []
    · subst hh
      rw [if_pos rfl, if_pos p.nil_eq.symm]
    · have hh2 : h2 ≠ [] := fun hc => hh (by subst hc; exact p.symm.nil_eq.symm)
      rw [if_neg hh, if_neg hh2]
  | .trailing count u =>
    show getTrailingProgress a count u h1 now = getTrailingProgress a count u h2 now
    simp only [getTrailingProgress]
    rw [aggregateProgress_perm
      (p.filter fun e => decide (now - unitToMs count u ≤ e.timestamp))]
  | .calendar period =>
    show getCalendarProgress a period h1 now = getCalendarProgress a period h2 now
    simp only [getCalendarProgress]
    rw [aggregateProgress_perm
      (p.filter fun e => decide (getPeriodStart now period ≤ e.timestamp))]

/-- Witness for C8 at a concrete input: two events given in either order. -/
theorem getProgress_perm_invariant_witness :
    getProgress (mkActivity 3 .instances) (.trailing 7 .days)
      [mkEvent 1704787200000, mkEvent 1704700800000] 1704888000000
    = getProgress (mkActivity 3 .instances) (.trailing 7 .days)
      [mkEvent 1704700800000, mkEvent 1704787200000] 1704888000000 :=
  getProgress_perm_invariant (mkActivity 3 .instances) (.trailing 7 .days) 1704888000000
    _ _ (List.Perm.swap (mkEvent 1704700800000) (mkEvent 1704787200000) [])

/-- Claim C4: for a weekly calendar rhythm the period start is the Monday
00:00:00.000 of the week containing `now`, reached by going back
`day = 0 ? 6 : day - 1` days; only events with `timestamp ≥ periodStart` are
counted, which at day granularity keeps exactly the days from that Monday on
(so the Sunday before is excluded). -/
theorem calendar_weekly_period_start_spec (a : Activity)
    (hist : List HistoryEvent) (now : Int) :
    getPeriodStart now .weekly
      = (epochDay now - (if getDay now = 0 then 6 else getDay now - 1)) * msPerDay ∧
    getDay (getPeriodStart now .weekly) = 1 ∧
    getPeriodStart now .weekly % msPerDay = 0 ∧
    getPeriodStart now .weekly ≤ now ∧
    now - getPeriodStart now .weekly < 7 * msPerDay ∧
    (getProgress a (.calendar .weekly) hist now).current
      = aggregateProgress
          (hist.filter fun e => decide (getPeriodStart now .weekly ≤ e.timestamp))
          a.measurement ∧
    hist.filter (fun e => decide (getPeriodStart now .weekly ≤ e.timestamp))
      = hist.filter (fun e =>
          decide (epochDay (getPeriodStart now .weekly) ≤ epochDay e.timestamp)) := by
  have hwk : getPeriodStart now .weekly
      = (epochDay now - (if getDay now = 0 then 6 else getDay now - 1)) * msPerDay := rfl
  refine ⟨rfl, ?_, ?_, ?_, ?_, rfl, ?_⟩
  · rw [hwk]
    simp only [getDay, epochDay, msPerDay]
    split <;> omega
  · rw [hwk]
    simp only [msPerDay]
    omega
  · rw [hwk]
    simp only [getDay, epochDay, msPerDay]
    split <;> omega
  · rw [hwk]
    simp only [getDay, epochDay, msPerDay]
    split <;> omega
  · apply List.filter_congr
    intro e _
    rw [hwk]
    simp only [getDay, epochDay, msPerDay, decide_eq_decide]
    split <;> omega

lemma civilFromDays_epoch_origin : civilFromDays 0 = (1970, 1, 1) := by decide

lemma civilFromDays_known_day : civilFromDays 19732 = (2024, 1, 10) := by decide

lemma daysFromCivil_known_day : daysFromCivil 2024 1 10 = 19732 := by decide

lemma civil_leap_century : civilFromDays (daysFromCivil 2000 2 29) = (2000, 2, 29) := by decide

lemma civil_non_leap_century : civilFromDays (daysFromCivil 1900 3 1 - 1) = (1900, 2, 28) := by decide

lemma civil_leap_year : civilFromDays (daysFromCivil 2024 3 1 - 1) = (2024, 2, 29) := by decide

lemma doeOf_bounds (z : Int) : 0 ≤ doeOf z ∧ doeOf z ≤ 146096 := by
  unfold doeOf
  omega

lemma era_doe_decomp (z : Int) : eraOf z * 146097 + doeOf z = z + 719468 := by
  unfold eraOf doeOf
  omega

lemma yearStart_mono {x y : Int} (h : x ≤ y) : yearStart x ≤ yearStart y := by
  unfold yearStart
  omega

/-- Sandwich facts for the year-of-era formula on one era of days. -/
lemma yoeOf_spec (doe : Int) (h0 : 0 ≤ doe) (h1 : doe ≤ 146096) :
    0 ≤ yoeOf doe ∧ yoeOf doe ≤ 399 ∧ yearStart (yoeOf doe) ≤ doe ∧
    doe - yearStart (yoeOf doe) ≤ 365 ∧
    (yoeOf doe ≤ 398 → doe < yearStart (yoeOf doe + 1)) := by
  unfold yoeOf
  simp only [yearStart]
  have hj1 : 1461 * ((4 * doe + 3) / 1461) ≤ 4 * doe + 3 := by omega
  have hj2 : 4 * doe + 3 < 1461 * ((4 * doe + 3) / 1461 + 1) := by omega
  have hj0 : 0 ≤ (4 * doe + 3) / 1461 := by omega
  have hjl : 365 * ((4 * doe + 3) / 1461) + ((4 * doe + 3) / 1461) / 4 ≤ doe := by omega
  have hju : doe < 365 * ((4 * doe + 3) / 1461 + 1) + ((4 * doe + 3) / 1461 + 1) / 4 := by
    omega
  split_ifs with hc
  · omega
  · omega

lemma yoeOf_unique (doe a : Int) (h0 : 0 ≤ doe) (h1 : doe ≤ 146096)
    (ha0 : 0 ≤ a) (ha1 : a ≤ 399) (hl : yearStart a ≤ doe)
    (hu : doe < yearStart (a + 1) ∨ a = 399) : yoeOf doe = a := by
  obtain ⟨hb0, hb1, hbl, _, hbu⟩ := yoeOf_spec doe h0 h1
  rcases lt_trichotomy (yoeOf doe) a with h | h | h
  · exfalso
    have h398 : yoeOf doe ≤ 398 := by omega
    have := hbu h398
    have hmono : yearStart (yoeOf doe + 1) ≤ yearStart a := yearStart_mono (by omega)
    omega
  · exact h
  · exfalso
    rcases hu with hu | hu
    · have hmono : yearStart (a + 1) ≤ yearStart (yoeOf doe) := yearStart_mono (by omega)
      omega
    · omega

/-- The month encoding `(153 mp + 2) / 5` is exactly inverted by
`(5 doy + 2) / 153` on the days of one year. -/
lemma mpOf_spec (doy : Int) (h0 : 0 ≤ doy) (h1 : doy ≤ 365) :
    0 ≤ mpOf doy ∧ mpOf doy ≤ 11 ∧
    (153 * mpOf doy + 2) / 5 ≤ doy ∧
    doy - (153 * mpOf doy + 2) / 5 ≤ 30 := by
  unfold mpOf
  omega

lemma mpOf_eq (mp d : Int) (_hm0 : 0 ≤ mp) (_hm1 : mp ≤ 11) (hd : 1 ≤ d)
    (hdm : (153 * mp + 2) / 5 + d - 1 < (153 * (mp + 1) + 2) / 5 ∨
      (mp = 11 ∧ (153 * mp + 2) / 5 + d - 1 ≤ 365)) :
    mpOf ((153 * mp + 2) / 5 + d - 1) = mp := by
  unfold mpOf
  omega


lemma civil_reconstruct (era yoe doy mp dd m z : Int)
    (hdec : era * 146097 + (yearStart yoe + doy) = z + 719468)
    (hy0 : 0 ≤ yoe) (hy1 : yoe ≤ 399)
    (hdoy0 : 0 ≤ doy) (hdoy1 : doy ≤ 365)
    (hynext : yoe ≤ 398 → yearStart yoe + doy < yearStart (yoe + 1))
    (hmpe : mp = (5 * doy + 2) / 153)
    (hdd : dd = doy - (153 * mp + 2) / 5 + 1)
    (hm : m = if mp < 10 then mp + 3 else mp - 9) :
    1 ≤ m ∧ m ≤ 12 ∧ 1 ≤ dd ∧ dd ≤ 31 ∧
    daysFromCivil (if m ≤ 2 then yoe + era * 400 + 1 else yoe + era * 400) m dd = z ∧
    z ≤ daysFromCivil (if m ≤ 2 then yoe + era * 400 + 1 else yoe + era * 400) (m + 1) 0 := by
  simp only [yearStart] at hdec hynext
  subst hdd hm
  simp only [daysFromCivil, yearStart]
  rcases lt_or_eq_of_le hy1 with h399 | h399
  · have hf : (yoe + era * 400 + 1) / 400 = era := by omega
    split_ifs <;> (try rw [hf]) <;>
      (try rw [show yoe + era * 400 + 1 - era * 400 = yoe + 1 from by ring]) <;> omega
  · subst h399
    split_ifs <;> omega

/-- The civil conversion is a section of `daysFromCivil`: the produced triple
is in range, maps back to the day number, and the day is at most the length of
its month (`daysFromCivil y (m+1) 0` is the last day of month `m`). -/
theorem civil_inv (z : Int) :
    1 ≤ (civilFromDays z).2.1 ∧ (civilFromDays z).2.1 ≤ 12 ∧
    1 ≤ (civilFromDays z).2.2 ∧ (civilFromDays z).2.2 ≤ 31 ∧
    daysFromCivil (civilFromDays z).1 (civilFromDays z).2.1 (civilFromDays z).2.2 = z ∧
    z ≤ daysFromCivil (civilFromDays z).1 ((civilFromDays z).2.1 + 1) 0 := by
  obtain ⟨hd0, hd1⟩ := doeOf_bounds z
  obtain ⟨hy0, hy1, hyl, hyu, hynext⟩ := yoeOf_spec (doeOf z) hd0 hd1
  have h1 : (civilFromDays z).1
      = if monthFromMp (mpOf (doyOf (doeOf z))) ≤ 2
        then yoeOf (doeOf z) + eraOf z * 400 + 1
        else yoeOf (doeOf z) + eraOf z * 400 := rfl
  have h21 : (civilFromDays z).2.1 = monthFromMp (mpOf (doyOf (doeOf z))) := rfl
  have h22 : (civilFromDays z).2.2 = dayFromDoy (doyOf (doeOf z)) := rfl
  rw [h1, h21, h22]
  refine civil_reconstruct (eraOf z) (yoeOf (doeOf z)) (doyOf (doeOf z))
    (mpOf (doyOf (doeOf z))) (dayFromDoy (doyOf (doeOf z)))
    (monthFromMp (mpOf (doyOf (doeOf z)))) z ?_ hy0 hy1 ?_ ?_ ?_ rfl rfl rfl
  · have := era_doe_decomp z
    unfold doyOf
    omega
  · unfold doyOf; omega
  · unfold doyOf; omega
  · unfold doyOf
    intro h
    have := hynext h
    omega

lemma yearStart_succ (y : Int) (_h : 0 ≤ y) :
    yearStart y + 365 ≤ yearStart (y + 1) ∧ yearStart (y + 1) ≤ yearStart y + 366 := by
  unfold yearStart
  omega

lemma civil_of_decomp (z era1 yoe1 mp1 d : Int)
    (hz : z + 719468 = era1 * 146097 + (yearStart yoe1 + ((153 * mp1 + 2) / 5 + d - 1)))
    (hy0 : 0 ≤ yoe1) (hy1 : yoe1 ≤ 399)
    (hm0 : 0 ≤ mp1) (hm1 : mp1 ≤ 11) (hd : 1 ≤ d)
    (hvalid : (mp1 ≤ 10 ∧ (153 * mp1 + 2) / 5 + d - 1 < (153 * (mp1 + 1) + 2) / 5) ∨
      (mp1 = 11 ∧ yoe1 ≤ 398 ∧
        yearStart yoe1 + ((153 * mp1 + 2) / 5 + d - 1) < yearStart (yoe1 + 1)) ∨
      (mp1 = 11 ∧ yoe1 = 399 ∧ (153 * mp1 + 2) / 5 + d - 1 ≤ 365)) :
    civilFromDays z
      = (yoe1 + era1 * 400 + (if 10 ≤ mp1 then 1 else 0), monthFromMp mp1, d) := by
  have hsucc := yearStart_succ yoe1 hy0
  have hdoy0 : 0 ≤ (153 * mp1 + 2) / 5 + d - 1 := by omega
  have hdoy365 : (153 * mp1 + 2) / 5 + d - 1 ≤ 365 := by
    simp only [yearStart] at hvalid
    omega
  have hdoe0 : 0 ≤ yearStart yoe1 + ((153 * mp1 + 2) / 5 + d - 1) := by
    simp only [yearStart]
    omega
  have hdoe1 : yearStart yoe1 + ((153 * mp1 + 2) / 5 + d - 1) ≤ 146096 := by
    simp only [yearStart] at hvalid ⊢
    omega
  have heraz : eraOf z = era1 := by
    unfold eraOf
    simp only [yearStart] at hz hdoe0 hdoe1
    omega
  have hdoez : doeOf z = yearStart yoe1 + ((153 * mp1 + 2) / 5 + d - 1) := by
    unfold doeOf
    simp only [yearStart] at hz hdoe0 hdoe1 ⊢
    omega
  have hyoez : yoeOf (doeOf z) = yoe1 := by
    rw [hdoez]
    refine yoeOf_unique _ _ hdoe0 hdoe1 hy0 hy1 (by omega) ?_
    rcases hvalid with ⟨hv1, hv2⟩ | ⟨_, _, hv⟩ | ⟨_, hv, _⟩
    · left
      have hq : (153 * (mp1 + 1) + 2) / 5 ≤ 337 := by omega
      omega
    · exact Or.inl hv
    · exact Or.inr hv
  have hdoyz : doyOf (doeOf z) = (153 * mp1 + 2) / 5 + d - 1 := by
    unfold doyOf
    rw [hyoez, hdoez]
    ring
  have hmpz : mpOf (doyOf (doeOf z)) = mp1 := by
    rw [hdoyz]
    refine mpOf_eq mp1 d hm0 hm1 hd ?_
    rcases hvalid with ⟨_, hv⟩ | ⟨h11, _, _⟩ | ⟨h11, _, _⟩
    · exact Or.inl hv
    · exact Or.inr ⟨h11, hdoy365⟩
    · exact Or.inr ⟨h11, hdoy365⟩
  have hdz : dayFromDoy (doyOf (doeOf z)) = d := by
    unfold dayFromDoy
    rw [hmpz, hdoyz]
    ring
  show (_, _, _) = _
  rw [hmpz, hdz, hyoez, heraz]
  unfold monthFromMp
  split_ifs <;> simp only [Prod.mk.injEq, and_true, true_and] <;> try omega

/-- Right inverse: a valid civil date (month in range, day between 1 and the
length of its month expressed via `daysFromCivil y (m+1) 0`) is recovered by
`civilFromDays`. -/
theorem daysFromCivil_inv (y m d : Int) (h1 : 1 ≤ m) (h2 : m ≤ 12) (h3 : 1 ≤ d)
    (h4 : daysFromCivil y m d ≤ daysFromCivil y (m + 1) 0) :
    civilFromDays (daysFromCivil y m d) = (y, m, d) := by
  by_cases hm2 : m ≤ 2
  · have hz : daysFromCivil y m d + 719468
        = (y - 1) / 400 * 146097 + (yearStart (y - 1 - (y - 1) / 400 * 400)
          + ((153 * (m + 9) + 2) / 5 + d - 1)) := by
      simp only [daysFromCivil, yearStart]
      rw [if_pos hm2, if_neg (by omega : ¬2 < m)]
      ring
    have hvalid : (m + 9 ≤ 10 ∧
          (153 * (m + 9) + 2) / 5 + d - 1 < (153 * (m + 9 + 1) + 2) / 5) ∨
        (m + 9 = 11 ∧ y - 1 - (y - 1) / 400 * 400 ≤ 398 ∧
          yearStart (y - 1 - (y - 1) / 400 * 400) + ((153 * (m + 9) + 2) / 5 + d - 1)
            < yearStart (y - 1 - (y - 1) / 400 * 400 + 1)) ∨
        (m + 9 = 11 ∧ y - 1 - (y - 1) / 400 * 400 = 399 ∧
          (153 * (m + 9) + 2) / 5 + d - 1 ≤ 365) := by
      by_cases hm1c : m + 1 ≤ 2
      · left
        refine ⟨by omega, ?_⟩
        simp only [daysFromCivil] at h4
        rw [if_pos hm2, if_pos hm1c, if_neg (by omega : ¬2 < m),
          if_neg (by omega : ¬2 < m + 1)] at h4
        omega
      · have hme : m = 2 := by omega
        subst hme
        right
        simp only [daysFromCivil] at h4
        norm_num at h4
        simp only [yearStart]
        by_cases hy399 : y - 1 - (y - 1) / 400 * 400 ≤ 398
        · left
          have hf : y / 400 = (y - 1) / 400 := by omega
          rw [hf] at h4
          refine ⟨by omega, hy399, by omega⟩
        · right
          have hf : y / 400 = (y - 1) / 400 + 1 := by omega
          rw [hf] at h4
          refine ⟨by omega, by omega, by omega⟩
    have hkey := civil_of_decomp (daysFromCivil y m d) ((y - 1) / 400)
      (y - 1 - (y - 1) / 400 * 400) (m + 9) d hz (by omega) (by omega) (by omega)
      (by omega) h3 hvalid
    rw [hkey]
    unfold monthFromMp
    rw [if_pos (by omega : 10 ≤ m + 9), if_neg (by omega : ¬m + 9 < 10)]
    simp only [Prod.mk.injEq, and_true]
    exact ⟨by omega, by omega⟩
  · have hz : daysFromCivil y m d + 719468
        = y / 400 * 146097 + (yearStart (y - y / 400 * 400)
          + ((153 * (m - 3) + 2) / 5 + d - 1)) := by
      simp only [daysFromCivil, yearStart]
      rw [if_neg hm2, if_pos (by omega : 2 < m)]
      ring
    have hvalid : (m - 3 ≤ 10 ∧
          (153 * (m - 3) + 2) / 5 + d - 1 < (153 * (m - 3 + 1) + 2) / 5) ∨
        (m - 3 = 11 ∧ y - y / 400 * 400 ≤ 398 ∧
          yearStart (y - y / 400 * 400) + ((153 * (m - 3) + 2) / 5 + d - 1)
            < yearStart (y - y / 400 * 400 + 1)) ∨
        (m - 3 = 11 ∧ y - y / 400 * 400 = 399 ∧
          (153 * (m - 3) + 2) / 5 + d - 1 ≤ 365) := by
      left
      refine ⟨by omega, ?_⟩
      simp only [daysFromCivil] at h4
      rw [if_neg hm2, if_neg (by omega : ¬m + 1 ≤ 2), if_pos (by omega : 2 < m),
        if_pos (by omega : 2 < m + 1)] at h4
      omega
    have hkey := civil_of_decomp (daysFromCivil y m d) (y / 400)
      (y - y / 400 * 400) (m - 3) d hz (by omega) (by omega) (by omega)
      (by omega) h3 hvalid
    rw [hkey]
    unfold monthFromMp
    rw [if_neg (by omega : ¬10 ≤ m - 3), if_pos (by omega : m - 3 < 10)]
    simp only [Prod.mk.injEq, and_true]
    exact ⟨by omega, by omega⟩

lemma daysFromCivil_day (y m d : Int) :
    daysFromCivil y m d = daysFromCivil y m 0 + d := by
  simp only [daysFromCivil]
  split_ifs <;> ring

lemma daysFromCivil_month13 (y d : Int) :
    daysFromCivil y 13 d = daysFromCivil (y + 1) 1 d := by
  simp only [daysFromCivil]
  norm_num

lemma daysFromCivil_dec31 (y : Int) : daysFromCivil y 13 0 = daysFromCivil y 12 31 := by
  simp only [daysFromCivil]
  norm_num

lemma daysFromCivil_month_le (y m : Int) (h1 : 1 ≤ m) (h2 : m ≤ 12) :
    daysFromCivil y m 1 ≤ daysFromCivil y (m + 1) 0 := by
  by_cases hm2 : m ≤ 2
  · by_cases hm1c : m + 1 ≤ 2
    · simp only [daysFromCivil]
      rw [if_pos hm2, if_pos hm1c, if_neg (by omega : ¬2 < m),
        if_neg (by omega : ¬2 < m + 1)]
      omega
    · have hme : m = 2 := by omega
      subst hme
      simp only [daysFromCivil]
      norm_num
      by_cases hy : y - 1 - (y - 1) / 400 * 400 ≤ 398
      · have hf : y / 400 = (y - 1) / 400 := by omega
        rw [hf, show y - (y - 1) / 400 * 400 = y - 1 - (y - 1) / 400 * 400 + 1 from by ring]
        omega
      · have hf : y / 400 = (y - 1) / 400 + 1 := by omega
        rw [hf]
        omega
  · simp only [daysFromCivil]
    rw [if_neg hm2, if_neg (by omega : ¬m + 1 ≤ 2), if_pos (by omega : 2 < m),
      if_pos (by omega : 2 < m + 1)]
    omega

lemma daily_period_facts (now : Int) :
    getPeriodEnd now .daily % msPerDay = msPerDay - 1 ∧
    now ≤ getPeriodEnd now .daily ∧
    getPeriodStart now .daily ≤ now ∧
    getPeriodStart (getPeriodEnd now .daily) .daily = getPeriodStart now .daily ∧
    getPeriodStart (getPeriodEnd now .daily + 1) .daily = getPeriodEnd now .daily + 1 := by
  simp only [getPeriodStart, getPeriodEnd, epochDay, msPerDay]
  omega

lemma weekly_period_facts (now : Int) :
    getPeriodEnd now .weekly % msPerDay = msPerDay - 1 ∧
    now ≤ getPeriodEnd now .weekly ∧
    getPeriodStart now .weekly ≤ now ∧
    getPeriodStart (getPeriodEnd now .weekly) .weekly = getPeriodStart now .weekly ∧
    getPeriodStart (getPeriodEnd now .weekly + 1) .weekly = getPeriodEnd now .weekly + 1 := by
  simp only [getPeriodStart, getPeriodEnd, getDay, epochDay, msPerDay]
  split_ifs <;> omega

lemma monthly_period_facts (now : Int) :
    getPeriodEnd now .monthly % msPerDay = msPerDay - 1 ∧
    now ≤ getPeriodEnd now .monthly ∧
    getPeriodStart now .monthly ≤ now ∧
    getPeriodStart (getPeriodEnd now .monthly) .monthly = getPeriodStart now .monthly ∧
    getPeriodStart (getPeriodEnd now .monthly + 1) .monthly = getPeriodEnd now .monthly + 1 := by
  have hfacts := civil_inv (epochDay now)
  rcases htr : civilFromDays (epochDay now) with ⟨Y, cm, dd⟩
  rw [htr] at hfacts
  try dsimp only at hfacts
  obtain ⟨hcm1, hcm2, hdd1, hdd2, hback, hval⟩ := hfacts
  have hzd : epochDay now * msPerDay ≤ now ∧ now < (epochDay now + 1) * msPerDay := by
    unfold epochDay msPerDay
    omega
  have hlin := daysFromCivil_day Y cm dd
  have hlin1 := daysFromCivil_day Y cm 1
  simp only [getPeriodStart, getPeriodEnd, getFullYear, getMonth, htr]
  try dsimp only
  rw [show cm - 1 + 1 = cm from by ring, show cm - 1 + 2 = cm + 1 from by ring]
  have hpe_day : epochDay (daysFromCivil Y (cm + 1) 0 * msPerDay + (msPerDay - 1))
      = daysFromCivil Y (cm + 1) 0 := by
    unfold epochDay msPerDay
    omega
  have hld : daysFromCivil Y cm (daysFromCivil Y (cm + 1) 0 - daysFromCivil Y cm 0)
      = daysFromCivil Y (cm + 1) 0 := by
    rw [daysFromCivil_day]
    ring
  have hld1 : 1 ≤ daysFromCivil Y (cm + 1) 0 - daysFromCivil Y cm 0 := by omega
  have hE : civilFromDays (daysFromCivil Y (cm + 1) 0)
      = (Y, cm, daysFromCivil Y (cm + 1) 0 - daysFromCivil Y cm 0) := by
    have h := daysFromCivil_inv Y cm (daysFromCivil Y (cm + 1) 0 - daysFromCivil Y cm 0)
      hcm1 hcm2 hld1 (by rw [hld])
    rw [hld] at h
    exact h
  have hnext : (daysFromCivil Y (cm + 1) 0 * msPerDay + (msPerDay - 1)) + 1
      = (daysFromCivil Y (cm + 1) 0 + 1) * msPerDay := by
    unfold msPerDay
    ring
  have hnext_day : epochDay ((daysFromCivil Y (cm + 1) 0 + 1) * msPerDay)
      = daysFromCivil Y (cm + 1) 0 + 1 := by
    unfold epochDay msPerDay
    omega
  have hE1val : daysFromCivil Y (cm + 1) 0 + 1 = daysFromCivil Y (cm + 1) 1 := by
    rw [daysFromCivil_day Y (cm + 1) 1]
    try ring
  refine ⟨by unfold msPerDay; omega, by unfold msPerDay at *; omega,
    by unfold msPerDay at *; omega, ?_, ?_⟩
  · rw [hpe_day, hE]
    dsimp only
    rw [show cm - 1 + 1 = cm from by ring]
  · rw [hnext, hnext_day, hE1val]
    by_cases hcm12 : cm + 1 ≤ 12
    · have hE1 : civilFromDays (daysFromCivil Y (cm + 1) 1) = (Y, cm + 1, 1) :=
        daysFromCivil_inv Y (cm + 1) 1 (by omega) hcm12 le_rfl
          (daysFromCivil_month_le Y (cm + 1) (by omega) hcm12)
      rw [hE1]
      try dsimp only
      try rw [show cm + 1 - 1 + 1 = cm + 1 from by ring]
      try rw [← hE1val]
      try unfold msPerDay
      try ring
    · have hcme : cm = 12 := by omega
      subst hcme
      rw [show (12 : Int) + 1 = 13 from by norm_num, daysFromCivil_month13]
      have hE1 : civilFromDays (daysFromCivil (Y + 1) 1 1) = (Y + 1, 1, 1) :=
        daysFromCivil_inv (Y + 1) 1 1 le_rfl (by norm_num) le_rfl
          (daysFromCivil_month_le (Y + 1) 1 le_rfl (by norm_num))
      rw [hE1]
      try dsimp only
      try norm_num
      try rw [← daysFromCivil_month13]
      try unfold msPerDay
      try ring

lemma daysFromCivil_le_month13 (y m : Int) (h1 : 1 ≤ m) (h2 : m ≤ 13) :
    daysFromCivil y m 0 ≤ daysFromCivil y 13 0 := by
  have c1 := daysFromCivil_month_le y 1 (by norm_num) (by norm_num)
  have c2 := daysFromCivil_month_le y 2 (by norm_num) (by norm_num)
  have c3 := daysFromCivil_month_le y 3 (by norm_num) (by norm_num)
  have c4 := daysFromCivil_month_le y 4 (by norm_num) (by norm_num)
  have c5 := daysFromCivil_month_le y 5 (by norm_num) (by norm_num)
  have c6 := daysFromCivil_month_le y 6 (by norm_num) (by norm_num)
  have c7 := daysFromCivil_month_le y 7 (by norm_num) (by norm_num)
  have c8 := daysFromCivil_month_le y 8 (by norm_num) (by norm_num)
  have c9 := daysFromCivil_month_le y 9 (by norm_num) (by norm_num)
  have c10 := daysFromCivil_month_le y 10 (by norm_num) (by norm_num)
  have c11 := daysFromCivil_month_le y 11 (by norm_num) (by norm_num)
  have c12 := daysFromCivil_month_le y 12 (by norm_num) (by norm_num)
  have l1 := daysFromCivil_day y 1 1
  have l2 := daysFromCivil_day y 2 1
  have l3 := daysFromCivil_day y 3 1
  have l4 := daysFromCivil_day y 4 1
  have l5 := daysFromCivil_day y 5 1
  have l6 := daysFromCivil_day y 6 1
  have l7 := daysFromCivil_day y 7 1
  have l8 := daysFromCivil_day y 8 1
  have l9 := daysFromCivil_day y 9 1
  have l10 := daysFromCivil_day y 10 1
  have l11 := daysFromCivil_day y 11 1
  have l12 := daysFromCivil_day y 12 1
  norm_num at c1 c2 c3 c4 c5 c6 c7 c8 c9 c10 c11 c12
  interval_cases m <;> omega

lemma daysFromCivil_month1_le (y m : Int) (h1 : 1 ≤ m) (h2 : m ≤ 12) :
    daysFromCivil y 1 1 ≤ daysFromCivil y m 1 := by
  have c1 := daysFromCivil_month_le y 1 (by norm_num) (by norm_num)
  have c2 := daysFromCivil_month_le y 2 (by norm_num) (by norm_num)
  have c3 := daysFromCivil_month_le y 3 (by norm_num) (by norm_num)
  have c4 := daysFromCivil_month_le y 4 (by norm_num) (by norm_num)
  have c5 := daysFromCivil_month_le y 5 (by norm_num) (by norm_num)
  have c6 := daysFromCivil_month_le y 6 (by norm_num) (by norm_num)
  have c7 := daysFromCivil_month_le y 7 (by norm_num) (by norm_num)
  have c8 := daysFromCivil_month_le y 8 (by norm_num) (by norm_num)
  have c9 := daysFromCivil_month_le y 9 (by norm_num) (by norm_num)
  have c10 := daysFromCivil_month_le y 10 (by norm_num) (by norm_num)
  have c11 := daysFromCivil_month_le y 11 (by norm_num) (by norm_num)
  have l1 := daysFromCivil_day y 1 1
  have l2 := daysFromCivil_day y 2 1
  have l3 := daysFromCivil_day y 3 1
  have l4 := daysFromCivil_day y 4 1
  have l5 := daysFromCivil_day y 5 1
  have l6 := daysFromCivil_day y 6 1
  have l7 := daysFromCivil_day y 7 1
  have l8 := daysFromCivil_day y 8 1
  have l9 := daysFromCivil_day y 9 1
  have l10 := daysFromCivil_day y 10 1
  have l11 := daysFromCivil_day y 11 1
  have l12 := daysFromCivil_day y 12 1
  norm_num at c1 c2 c3 c4 c5 c6 c7 c8 c9 c10 c11
  interval_cases m <;> omega

lemma yearly_period_facts (now : Int) :
    getPeriodEnd now .yearly % msPerDay = msPerDay - 1 ∧
    now ≤ getPeriodEnd now .yearly ∧
    getPeriodStart now .yearly ≤ now ∧
    getPeriodStart (getPeriodEnd now .yearly) .yearly = getPeriodStart now .yearly ∧
    getPeriodStart (getPeriodEnd now .yearly + 1) .yearly = getPeriodEnd now .yearly + 1 := by
  have hfacts := civil_inv (epochDay now)
  rcases htr : civilFromDays (epochDay now) with ⟨Y, cm, dd⟩
  rw [htr] at hfacts
  try dsimp only at hfacts
  obtain ⟨hcm1, hcm2, hdd1, hdd2, hback, hval⟩ := hfacts
  have hzd : epochDay now * msPerDay ≤ now ∧ now < (epochDay now + 1) * msPerDay := by
    unfold epochDay msPerDay
    omega
  have hlin := daysFromCivil_day Y cm dd
  have hlin1 := daysFromCivil_day Y cm 1
  have hchain13 := daysFromCivil_le_month13 Y (cm + 1) (by omega) (by omega)
  have hchain1 := daysFromCivil_month1_le Y cm hcm1 hcm2
  have hdec31 := daysFromCivil_dec31 Y
  simp only [getPeriodStart, getPeriodEnd, getFullYear, getMonth, htr]
  try dsimp only
  have hpe_day : epochDay (daysFromCivil Y 12 31 * msPerDay + (msPerDay - 1))
      = daysFromCivil Y 12 31 := by
    unfold epochDay msPerDay
    omega
  have hE : civilFromDays (daysFromCivil Y 12 31) = (Y, 12, 31) :=
    daysFromCivil_inv Y 12 31 (by norm_num) (by norm_num) (by norm_num)
      (by rw [show (12 : Int) + 1 = 13 from by norm_num, hdec31])
  have hnext : (daysFromCivil Y 12 31 * msPerDay + (msPerDay - 1)) + 1
      = (daysFromCivil Y 12 31 + 1) * msPerDay := by
    unfold msPerDay
    ring
  have hnext_day : epochDay ((daysFromCivil Y 12 31 + 1) * msPerDay)
      = daysFromCivil Y 12 31 + 1 := by
    unfold epochDay msPerDay
    omega
  have hwrap : daysFromCivil Y 12 31 + 1 = daysFromCivil (Y + 1) 1 1 := by
    rw [← hdec31, ← daysFromCivil_month13 Y 1, daysFromCivil_day Y 13 1]
  have hE1 : civilFromDays (daysFromCivil (Y + 1) 1 1) = (Y + 1, 1, 1) :=
    daysFromCivil_inv (Y + 1) 1 1 le_rfl (by norm_num) le_rfl
      (daysFromCivil_month_le (Y + 1) 1 le_rfl (by norm_num))
  refine ⟨by unfold msPerDay; omega, by unfold msPerDay at *; omega,
    by unfold msPerDay at *; omega, ?_, ?_⟩
  · rw [hpe_day, hE]
  · rw [hnext, hnext_day, hwrap, hE1]
    try dsimp only
    try rw [← hwrap]
    try unfold msPerDay
    try ring

/-- Claim C5: every calendar status carries
`daysRemaining = max 0 (ceil((periodEnd - now) / 86400000))` where `periodEnd`
is the last millisecond (23:59:59.999) of the calendar period containing
`now` (it is a `23:59:59.999` instant, is at or after `now`, lies in the same
period as `now` as measured by `getPeriodStart`, and the very next millisecond
starts a new period), and the context is unconditionally the period label
"this {day|week|month|year}" with the period noun obtained by stripping the
trailing "ly" ("daily" mapping to "day"). -/
theorem calendar_daysRemaining_periodEnd_spec (a : Activity) (p : CalendarPeriod)
    (hist : List HistoryEvent) (now : Int) :
    (getProgress a (.calendar p) hist now).daysRemaining
      = some (max 0 (ceilDiv (getPeriodEnd now p - now) msPerDay)) ∧
    (getProgress a (.calendar p) hist now).context = "this " ++ periodNoun p ∧
    (getProgress a (.calendar p) hist now).periodLabel
      = some ((getProgress a (.calendar p) hist now).context) ∧
    getPeriodEnd now p % msPerDay = msPerDay - 1 ∧
    now ≤ getPeriodEnd now p ∧
    getPeriodStart now p ≤ now ∧
    getPeriodStart (getPeriodEnd now p) p = getPeriodStart now p ∧
    getPeriodStart (getPeriodEnd now p + 1) p = getPeriodEnd now p + 1 := by
  cases p with
  | daily =>
    obtain ⟨h1, h2, h3, h4, h5⟩ := daily_period_facts now
    exact ⟨rfl, rfl, rfl, h1, h2, h3, h4, h5⟩
  | weekly =>
    obtain ⟨h1, h2, h3, h4, h5⟩ := weekly_period_facts now
    exact ⟨rfl, rfl, rfl, h1, h2, h3, h4, h5⟩
  | monthly =>
    obtain ⟨h1, h2, h3, h4, h5⟩ := monthly_period_facts now
    exact ⟨rfl, rfl, rfl, h1, h2, h3, h4, h5⟩
  | yearly =>
    obtain ⟨h1, h2, h3, h4, h5⟩ := yearly_period_facts now
    exact ⟨rfl, rfl, rfl, h1, h2, h3, h4, h5⟩
